import Mathlib

/-!
Verification of the h2raw package

A shallow embedding of the `h2raw` package (`request.go`, `response.go`,
`h2conn.go`, `client.go`) and theorems about the request builder, the send
path and the receive loop.

Modelling conventions.

* A Go `map[string][]string` is a `GoMap`: a list of (key, values) entries with
  pairwise distinct keys.  `m[k]` is `GoMap.get`, `m[k] = v` is `GoMap.set`.
  The order in which a `for k, v := range m` loop visits the keys is chosen by
  the Go runtime; it is a parameter `ord : RangeOrder` of every function that
  ranges over a map, and `ValidOrder ord` says that it visits every key once.
* The transport and the `http2.Framer` bound to it are part of `H2Conn`:
  `written` is what has gone out on the connection, `wfail` the outcome of the
  writes still to come, `inbound` the outcome of the `ReadFrame` calls still to
  come (after the last one the stream is at its end and `ReadFrame` fails).
  Where two inbound sequences are compared, the outcomes are computed from the
  frames that arrive by `Framer.reads`, which runs the order check that
  `ReadFrame` makes on every frame unless `AllowIllegalReads` is set.
* An HPACK header block written by `hpack.Encoder` is the sequence of fields
  handed to `WriteField`; `hpack.Decoder.DecodeFull` is a parameter `dec`.
* A Go result pair `(*Response, error)` is kept as a pair of options; a run time
  panic is a separate outcome.
-/

namespace H2raw

/-- Go `error` values, identified by their message. -/
abbrev Error := String

/-- One `hpack.HeaderField`. -/
structure HeaderField where
  Name : String
  Value : String
deriving DecidableEq, Repr

/-! ## Go maps -/

/-- Value of key `k` in a list of entries: the first entry with that key. -/
def lookupEntries : List (String × List String) → String → Option (List String)
  | [], _ => none
  | (k', v) :: rest, k => if k' = k then some v else lookupEntries rest k

/-- Entries after `m[k] = v`: the entry of `k` is replaced, or a new one is added. -/
def setEntries : List (String × List String) → String → List String →
    List (String × List String)
  | [], k, v => [(k, v)]
  | (k', v') :: rest, k, v =>
    if k' = k then (k, v) :: rest else (k', v') :: setEntries rest k v

/-- A Go `map[string][]string`. -/
structure GoMap where
  entries : List (String × List String)
deriving DecidableEq, Repr

namespace GoMap

/-- The map `make(map[string][]string)`. -/
def empty : GoMap := ⟨[]⟩

/-- The lookup `v, ok := m[k]`: `some v` when `ok`. -/
def get (m : GoMap) (k : String) : Option (List String) := lookupEntries m.entries k

/-- The assignment `m[k] = v`. -/
def set (m : GoMap) (k : String) (v : List String) : GoMap := ⟨setEntries m.entries k v⟩

/-- The keys of the map. -/
def keys (m : GoMap) : List String := m.entries.map Prod.fst

end GoMap

/-- The order in which the runtime visits the keys of a map in a `range` loop. -/
abbrev RangeOrder := GoMap → List String

/-- The runtime visits every key of the map exactly once. -/
def ValidOrder (ord : RangeOrder) : Prop := ∀ m : GoMap, (ord m).Perm m.keys

/-- The entries visited by `for k, v := range m`, in the order of the visit. -/
def GoMap.range (ord : RangeOrder) (m : GoMap) : List (String × List String) :=
  (ord m).filterMap (fun k => (m.get k).map (fun v => (k, v)))

/-- The iteration order that follows the entries as stored. -/
def storedOrder : RangeOrder := fun m => m.keys

/-- The iteration order that follows the entries as stored, backwards. -/
def reverseOrder : RangeOrder := fun m => m.keys.reverse

/-! ## request.go -/

/-- The struct `Request`; `Body` is the pointer `*[]byte`, `none` for `nil`. -/
structure Request where
  Method : String
  Scheme : String
  Authority : String
  Path : String
  Headers : GoMap
  Body : Option (List Nat)
deriving DecidableEq, Repr

/-- The constructor `NewRequest`. -/
def NewRequest (method scheme authority path : String) : Request :=
  { Method := method, Scheme := scheme, Authority := authority, Path := path,
    Headers := GoMap.empty, Body := none }

/-- The method `Request.SetHeader`. -/
def Request.SetHeader (r : Request) (key : String) (values : List String) : Request :=
  { r with Headers := r.Headers.set key values }

/-- The method `Request.AddHeader`. -/
def Request.AddHeader (r : Request) (key value : String) : Request :=
  match r.Headers.get key with
  | some values =>
    let newValues := values ++ [value]
    { r with Headers := r.Headers.set key newValues }
  | none => { r with Headers := r.Headers.set key [value] }

/-- The method `Request.HasBody`. -/
def Request.HasBody (r : Request) : Bool := r.Body.isSome

/-- The method `Request.BodyLengh`. -/
def Request.BodyLengh (r : Request) : Int :=
  match r.Body with
  | some b => (b.length : Int)
  | none => -1

/-! ## response.go -/

/-- The struct `Response`; `Body` is the pointer `*[]byte`, `none` for `nil`. -/
structure Response where
  Status : String
  Proto : String
  Headers : GoMap
  Body : Option (List Nat)
deriving DecidableEq, Repr

/-- The method `Response.HasBody`. -/
def Response.HasBody (r : Response) : Bool := r.Body.isSome

/-- The method `Response.BodyLength`. -/
def Response.BodyLength (r : Response) : Int :=
  match r.Body with
  | some b => (b.length : Int)
  | none => -1

/-- The method `Response.GetHeaders`. -/
def Response.GetHeaders (r : Response) (key : String) : Option (List String) :=
  r.Headers.get key

/-- One pass through the body of the loop of `GetHeaderCombineCases`.  The loop
header `for k, values := range(r.Headers)` declares a variable `values` of its
own, which hides the result variable of the same name: the state is the pair
(result variable, loop variable), and the assignment
`values = append(values, values...)` reads and writes the loop variable. -/
def combineCasesStep (toLower : String → String) (key : String)
    (outer : List String) (kv : String × List String) : List String × List String :=
  let k := kv.1
  let values := kv.2
  if toLower k = key then (outer, values ++ values) else (outer, values)

/-- The method `Response.GetHeaderCombineCases`; `toLower` is `strings.ToLower`. -/
def Response.GetHeaderCombineCases (toLower : String → String) (ord : RangeOrder)
    (r : Response) (key _separator : String) : List String × Bool :=
  let key := toLower key
  let values : List String := []
  let values := (r.Headers.range ord).foldl
    (fun outer kv => (combineCasesStep toLower key outer kv).1) values
  let has := decide (values.length > 0)
  (values, has)

/-- Lower-casing of the ASCII letters of a string. -/
def asciiToLower (s : String) : String := ⟨s.data.map Char.toLower⟩

/-! ## The connection: h2conn.go -/

/-- What `Conn.Write` and the writing half of `http2.Framer` put on the wire. -/
inductive Wire where
  /-- The bytes of `http2.ClientPreface`. -/
  | preface
  /-- A SETTINGS frame with the given (identifier, value) settings. -/
  | settings (params : List (Nat × Nat))
  /-- A HEADERS frame, from a `http2.HeadersFrameParam`. -/
  | headers (streamId : Nat) (block : List HeaderField) (endStream endHeaders : Bool)
  /-- A DATA frame, from `WriteData(streamId, endStream, data)`. -/
  | data (streamId : Nat) (endStream : Bool) (payload : List Nat)
deriving DecidableEq, Repr

/-- The frames `http2.Framer.ReadFrame` returns, by the cases of the type switch
of `readResponse`. -/
inductive Frame where
  /-- A `*http2.HeadersFrame`: `HeaderBlockFragment()` and `StreamEnded()`. -/
  | HeadersFrame (streamId : Nat) (block : List Nat) (streamEnded : Bool)
  /-- A `*http2.DataFrame`: `Data()` and `StreamEnded()`. -/
  | DataFrame (streamId : Nat) (data : List Nat) (streamEnded : Bool)
  /-- A `*http2.GoAwayFrame`. -/
  | GoAwayFrame
  /-- A `*http2.RSTStreamFrame`. -/
  | RSTStreamFrame (streamId : Nat)
  /-- A frame of any other type (settings, ping, priority, window update, ...). -/
  | OtherFrame (frameType : Nat) (streamId : Nat)
deriving DecidableEq, Repr

/-- The constant `http2.SettingMaxConcurrentStreams`. -/
def SettingMaxConcurrentStreams : Nat := 3

/-- The struct `H2Conn` with the state of its `Conn` and `Framer`. -/
structure H2Conn where
  PrefaceSent : Bool
  SettingsSent : Bool
  /-- What has been written to the connection so far, oldest first. -/
  written : List Wire
  /-- Outcome of the writes to come: `wfail 0` is the error of the next write,
  `none` when it succeeds. -/
  wfail : Nat → Option Error
  /-- Outcome of the `ReadFrame` calls to come. -/
  inbound : List (Except Error Frame)

/-- One write to the connection; a write that fails puts nothing on the wire. -/
def H2Conn.write (c : H2Conn) (w : Wire) : Option Error × H2Conn :=
  match c.wfail 0 with
  | some err => (some err, { c with wfail := fun i => c.wfail (i + 1) })
  | none =>
    (none, { c with written := c.written ++ [w], wfail := fun i => c.wfail (i + 1) })

/-- The method `H2Conn.DefaultInit`. -/
def H2Conn.DefaultInit (c : H2Conn) : Option Error × H2Conn :=
  match c.write Wire.preface with
  | (some err, c) => (some err, c)
  | (none, c) =>
    let c := { c with PrefaceSent := true }
    let defaultSettings := (SettingMaxConcurrentStreams, 100)
    match c.write (Wire.settings [defaultSettings]) with
    | (some err, c) => (some err, c)
    | (none, c) =>
      let c := { c with SettingsSent := true }
      (none, c)

/-- The method `H2Conn.IsIntialized`. -/
def H2Conn.IsIntialized (c : H2Conn) : Bool := c.PrefaceSent && c.SettingsSent

/-! ## client.go -/

/-- How a call ends: it returns the pair `(*Response, error)`, or it panics. -/
inductive Outcome where
  | returned (resp : Option Response) (err : Option Error)
  | panicked
deriving DecidableEq, Repr

/-- The function `parseHeaders`; `dec` is `hpack.NewDecoder(4096, nil).DecodeFull`. -/
def parseHeaders (dec : List Nat → Except Error (List HeaderField))
    (blockFragment : List Nat) : GoMap × Option Error :=
  let headers := GoMap.empty
  match dec blockFragment with
  | .error err => (headers, some err)
  | .ok hvals =>
    let headers := hvals.foldl (fun headers h =>
      match headers.get h.Name with
      | some vals =>
        let newVals := vals ++ [h.Value]
        headers.set h.Name newVals
      | none => headers.set h.Name [h.Value]) headers
    (headers, none)

/-- The function `addHeaders`: the value of `headers` after the call. -/
def addHeaders (ord : RangeOrder) (headers additionalHeaders : GoMap) : GoMap :=
  (additionalHeaders.range ord).foldl (fun headers kv =>
    let k := kv.1
    let v := kv.2
    match headers.get k with
    | some hvals => headers.set k (hvals ++ v)
    | none => headers.set k v) headers

/-- How the `for` loop of `readResponse` is left: by `break loop`, with the
values of `hasBody`, `body` and `headers`, or by a `return`. -/
inductive LoopExit where
  | broke (hasBody : Bool) (body : List Nat) (headers : GoMap)
  | returned (resp : Option Response) (err : Option Error)
deriving DecidableEq, Repr

/-- The `for` loop of `readResponse`, run on the outcomes of the reads to come
from the local variables `hasBody`, `body` and `headers`; it gives back the way
the loop is left and the reads that were not made.  When no read is left the
transport is at its end and `ReadFrame` fails with `io.EOF`. -/
def readLoop (dec : List Nat → Except Error (List HeaderField)) (ord : RangeOrder) :
    List (Except Error Frame) → Bool → List Nat → GoMap →
    LoopExit × List (Except Error Frame)
  | [], _, _, _ => (LoopExit.returned none (some "EOF"), [])
  | .error err :: rest, _, _, _ => (LoopExit.returned none (some err), rest)
  | .ok (Frame.HeadersFrame _ block streamEnded) :: rest, hasBody, body, headers =>
    match parseHeaders dec block with
    | (_, some err) => (LoopExit.returned none (some err), rest)
    | (newHeaders, none) =>
      let headers := addHeaders ord headers newHeaders
      if streamEnded then (LoopExit.broke hasBody body headers, rest)
      else readLoop dec ord rest hasBody body headers
  | .ok (Frame.DataFrame _ tmp streamEnded) :: rest, _, body, headers =>
    let body := body ++ tmp
    let hasBody := true
    if streamEnded then (LoopExit.broke hasBody body headers, rest)
    else readLoop dec ord rest hasBody body headers
  | .ok Frame.GoAwayFrame :: rest, _, _, _ =>
    (LoopExit.returned none (some "Received GoAway frame"), rest)
  | .ok (Frame.RSTStreamFrame _) :: rest, _, _, _ =>
    (LoopExit.returned none (some "Received RSTStreamFrame frame"), rest)
  | .ok (Frame.OtherFrame _ _) :: rest, hasBody, body, headers =>
    readLoop dec ord rest hasBody body headers

/-- The method `Client.readResponse`.  The receiver is used for logging only. -/
def Client.readResponse (dec : List Nat → Except Error (List HeaderField))
    (ord : RangeOrder) (h2conn : H2Conn) : Outcome × H2Conn :=
  let hasBody := false
  let body : List Nat := []
  let headers := GoMap.empty
  match readLoop dec ord h2conn.inbound hasBody body headers with
  | (LoopExit.returned resp err, rest) =>
    (Outcome.returned resp err, { h2conn with inbound := rest })
  | (LoopExit.broke hasBody body headers, rest) =>
    let h2conn := { h2conn with inbound := rest }
    -- `status = s[0]` indexes the slice found under ":status"; `none`: out of range
    let status : Option String :=
      match headers.get ":status" with
      | some s => s.head?
      | none => some ""
    match status with
    | none => (Outcome.panicked, h2conn)
    | some status =>
      let b := if hasBody then some body else none
      let resp : Response := { Status := status, Proto := "", Headers := headers, Body := b }
      (Outcome.returned (some resp) none, h2conn)

/-- The header fields written to the HPACK encoder by `Client.MakeRequest`:
the four pseudo-headers, then the two nested loops over `req.Headers`. -/
def Client.headerBlock (ord : RangeOrder) (req : Request) : List HeaderField :=
  [⟨":method", req.Method⟩, ⟨":scheme", req.Scheme⟩, ⟨":authority", req.Authority⟩,
    ⟨":path", req.Path⟩] ++
  (req.Headers.range ord).flatMap (fun kv => kv.2.map (fun v => ⟨kv.1, v⟩))

/-- The method `Client.MakeRequest`.  The receiver is used for logging only; the
writes of the encoder go to a `bytes.Buffer` and do not fail. -/
def Client.MakeRequest (dec : List Nat → Except Error (List HeaderField))
    (ord : RangeOrder) (h2conn : H2Conn) (req : Request) (streamId : Nat) :
    Outcome × H2Conn :=
  match (if !h2conn.IsIntialized then h2conn.DefaultInit else (none, h2conn)) with
  | (some err, h2conn) => (Outcome.returned none (some err), h2conn)
  | (none, h2conn) =>
    let headerBlockBuf := Client.headerBlock ord req
    match h2conn.write (Wire.headers streamId headerBlockBuf (!req.HasBody) true) with
    | (some err, h2conn) => (Outcome.returned none (some err), h2conn)
    | (none, h2conn) =>
      -- `if req.HasBody()`, that is `req.Body != nil`; `body` is `*req.Body`
      match req.Body with
      | some body =>
        match h2conn.write (Wire.data streamId true body) with
        | (some err, h2conn) => (Outcome.returned none (some err), h2conn)
        | (none, h2conn) => Client.readResponse dec ord h2conn
      | none => Client.readResponse dec ord h2conn

/-- The header fields written to the HPACK encoder by `Request.Serialize`. -/
def Request.headerBlock (ord : RangeOrder) (r : Request) : List HeaderField :=
  [⟨":method", r.Method⟩, ⟨":scheme", r.Scheme⟩, ⟨":path", r.Path⟩,
    ⟨":authority", r.Authority⟩] ++
  (r.Headers.range ord).flatMap (fun kv => kv.2.map (fun v => ⟨kv.1, v⟩))

/-- The method `Request.Serialize`.  The frames are written by a framer of its
own into `requestBuf`; `wfail i` is the error with which that framer refuses its
write number `i`, `none` when it accepts it.  The result is the content of
`requestBuf`, frame by frame, and the error. -/
def Request.Serialize (ord : RangeOrder) (wfail : Nat → Option Error) (r : Request)
    (streamId : Nat) : List Wire × Option Error :=
  let headerBuf := Request.headerBlock ord r
  let requestBuf : List Wire := []
  match wfail 0 with
  | some err => ([], some err)
  | none =>
    let requestBuf := requestBuf ++ [Wire.headers streamId headerBuf r.HasBody true]
    match r.Body with
    | some body =>
      match wfail 1 with
      | some err => ([], some err)
      | none =>
        let requestBuf := requestBuf ++ [Wire.data streamId true body]
        (requestBuf, none)
    | none => (requestBuf, none)

/-! ## The frame reader: the order check of http2.Framer -/

/-- Two optional value lists, one after the other: what a name maps to after the
values of a later header block have been appended to the earlier ones. -/
def mergeVals : Option (List String) → Option (List String) → Option (List String)
  | some a, some b => some (a ++ b)
  | some a, none => some a
  | none, b => b

/-- The values of the fields named exactly `n`, in the order of the fields. -/
def valuesOf (n : String) (fs : List HeaderField) : List String :=
  (fs.filter (fun f => f.Name = n)).map HeaderField.Value

/-- What a name maps to when the fields `fs` are gathered by name: absent when
no field has the name, otherwise its values in order. -/
def groupOf (n : String) (fs : List HeaderField) : Option (List String) :=
  if valuesOf n fs = [] then none else some (valuesOf n fs)

/-- The value lists of the entries with key `n`, one after the other. -/
def collectVals (n : String) : List (String × List String) → Option (List String)
  | [] => none
  | (k, v) :: rest => mergeVals (if k = n then some v else none) (collectVals n rest)

/-- Whether a frame is a DATA frame. -/
def Frame.isData : Frame → Bool
  | Frame.DataFrame _ _ _ => true
  | _ => false

/-- Whether a frame is a HEADERS or DATA frame that carries end-stream. -/
def Frame.endsStream : Frame → Bool
  | Frame.HeadersFrame _ _ streamEnded => streamEnded
  | Frame.DataFrame _ _ streamEnded => streamEnded
  | _ => false

/-- The payloads of the DATA frames of a frame sequence, concatenated in order. -/
def dataBytes : List Frame → List Nat
  | [] => []
  | Frame.DataFrame _ d _ :: rest => d ++ dataBytes rest
  | _ :: rest => dataBytes rest

/-- The fields decoded from the HEADERS frames of a frame sequence: frames in
order, and the fields of one frame in the order the decoder gives them. -/
def decodedFields (dec : List Nat → Except Error (List HeaderField)) :
    List Frame → List HeaderField
  | [] => []
  | Frame.HeadersFrame _ block _ :: rest =>
    (match dec block with
      | .ok hvals => hvals
      | .error _ => []) ++ decodedFields dec rest
  | _ :: rest => decodedFields dec rest

/-- A sequence of `AddHeader` calls, one per (name, value) pair, in order. -/
def addAll (r : Request) (adds : List HeaderField) : Request :=
  adds.foldl (fun r h => r.AddHeader h.Name h.Value) r

/-- Whether something written to the wire is a HEADERS or DATA frame. -/
def Wire.isRequestFrame : Wire → Bool
  | Wire.headers _ _ _ _ => true
  | Wire.data _ _ _ => true
  | _ => false

/-- The case-insensitive lookup as the specification words it: all values from
all headers whose name matches the key case-insensitively, and whether there is
at least one such value. -/
def combineCasesIntended (toLower : String → String) (ord : RangeOrder)
    (r : Response) (key : String) : List String × Bool :=
  let values := ((r.Headers.range ord).filter
    (fun kv => toLower kv.1 = toLower key)).flatMap Prod.snd
  (values, decide (values.length > 0))

/-! ## Sample data -/

/-- A decoder for header blocks made of one-byte indexed fields of the HPACK
static table; every other block is refused. -/
def sampleDecode (block : List Nat) : Except Error (List HeaderField) :=
  block.mapM (fun b =>
    if b = 0x88 then .ok ⟨":status", "200"⟩
    else if b = 0x8d then .ok ⟨":status", "404"⟩
    else if b = 0x90 then .ok ⟨"accept-encoding", "gzip, deflate"⟩
    else .error "decoding error: invalid indexed representation index")

/-- A connection on which nothing has been sent, whose writes all succeed. -/
def freshConn (inbound : List (Except Error Frame)) : H2Conn :=
  { PrefaceSent := false, SettingsSent := false, written := [],
    wfail := fun _ => none, inbound := inbound }

/-- A connection on which nothing has been sent, whose write number `k` fails. -/
def failingConn (k : Nat) (inbound : List (Except Error Frame)) : H2Conn :=
  { PrefaceSent := false, SettingsSent := false, written := [],
    wfail := fun i => if i = k then some "write: broken pipe" else none,
    inbound := inbound }

/-- A connection that is initialized already, whose writes all succeed. -/
def readyConn (inbound : List (Except Error Frame)) : H2Conn :=
  { PrefaceSent := true, SettingsSent := true,
    written := [Wire.preface, Wire.settings [(SettingMaxConcurrentStreams, 100)]],
    wfail := fun _ => none, inbound := inbound }

/-- The pairs of the header order example: a name, another, the first again. -/
def sampleAdds : List HeaderField := [⟨"a", "1"⟩, ⟨"b", "2"⟩, ⟨"a", "3"⟩]

/-- A request without a body on which the pairs of `sampleAdds` were added. -/
def sampleRequest : Request :=
  (((NewRequest "GET" "https" "example.com" "/x").AddHeader "a" "1").AddHeader "b" "2").AddHeader
    "a" "3"

/-- A request with the two-byte body "hi" and a content-length header of 999. -/
def lyingRequest : Request :=
  { (NewRequest "POST" "https" "example.com" "/example/post").AddHeader
      "content-length" "999" with Body := some [104, 105] }

/-- An exchange: two HEADERS frames, two DATA frames, frames of other types. -/
def sampleInbound : List (Except Error Frame) :=
  [.ok (Frame.OtherFrame 4 0), .ok (Frame.HeadersFrame 1 [0x88, 0x90] false),
    .ok (Frame.OtherFrame 8 1), .ok (Frame.HeadersFrame 1 [0x8d, 0x90] false),
    .ok (Frame.DataFrame 1 [104, 105] false), .ok (Frame.DataFrame 1 [33] true),
    .ok (Frame.OtherFrame 6 0)]

/-- The Response assembled from `sampleInbound`. -/
def sampleResponse : Response :=
  { Status := "200", Proto := "",
    Headers := ⟨[(":status", ["200", "404"]),
      ("accept-encoding", ["gzip, deflate", "gzip, deflate"])]⟩,
    Body := some [104, 105, 33] }

/-- An exchange that the peer resets after a HEADERS and a DATA frame. -/
def resetInbound : List (Except Error Frame) :=
  [.ok (Frame.HeadersFrame 1 [0x88] false), .ok (Frame.DataFrame 1 [104] false),
    .ok (Frame.RSTStreamFrame 1), .ok (Frame.DataFrame 1 [] true)]

theorem lookupEntries_setEntries (es : List (String × List String)) (k : String)
    (v : List String) (n : String) :
    lookupEntries (setEntries es k v) n = if k = n then some v else lookupEntries es n := by
  induction es with
  | nil => simp [setEntries, lookupEntries]
  | cons e rest ih =>
    obtain ⟨k', v'⟩ := e
    by_cases h : k' = k
    · subst h
      by_cases h2 : k' = n <;> simp [setEntries, lookupEntries, h2]
    · by_cases h2 : k' = n
      · subst h2
        have h3 : ¬ k = k' := fun e => h e.symm
        simp [setEntries, lookupEntries, h, h3]
      · simp [setEntries, lookupEntries, h, h2, ih]

theorem GoMap.get_set (m : GoMap) (k : String) (v : List String) (n : String) :
    (m.set k v).get n = if k = n then some v else m.get n := by
  simp [GoMap.get, GoMap.set, lookupEntries_setEntries]

theorem lookupEntries_eq_none (es : List (String × List String)) (n : String) :
    lookupEntries es n = none ↔ n ∉ es.map Prod.fst := by
  induction es with
  | nil => simp [lookupEntries]
  | cons e rest ih =>
    obtain ⟨k', v'⟩ := e
    by_cases h : k' = n
    · simp [lookupEntries, h]
    · have h' : ¬ n = k' := fun e => h e.symm
      simp only [lookupEntries, h, if_false, ih]
      simp [h']

theorem setEntries_keys (es : List (String × List String)) (k : String) (v : List String) :
    (setEntries es k v).map Prod.fst =
      if k ∈ es.map Prod.fst then es.map Prod.fst else es.map Prod.fst ++ [k] := by
  induction es with
  | nil => simp [setEntries]
  | cons e rest ih =>
    obtain ⟨k', v'⟩ := e
    by_cases h : k' = k
    · subst h
      simp [setEntries]
    · have h' : ¬ k = k' := fun e => h e.symm
      simp only [setEntries, h, if_false, List.map_cons, ih, List.mem_cons, h', false_or]
      split <;> simp

theorem GoMap.set_keys_nodup (m : GoMap) (k : String) (v : List String)
    (h : m.keys.Nodup) : (m.set k v).keys.Nodup := by
  simp only [GoMap.keys, GoMap.set, setEntries_keys]
  split
  · exact h
  · rename_i hk
    rw [List.nodup_append]
    refine ⟨h, by simp, ?_⟩
    intro a ha hb
    simp at hb
    subst hb
    exact hk ha

/-! ## Gathering fields by name -/

theorem mergeVals_none_right (a : Option (List String)) : mergeVals a none = a := by
  cases a <;> rfl

theorem mergeVals_assoc (a b c : Option (List String)) :
    mergeVals (mergeVals a b) c = mergeVals a (mergeVals b c) := by
  cases a <;> cases b <;> cases c <;> simp [mergeVals]

theorem valuesOf_append (n : String) (a b : List HeaderField) :
    valuesOf n (a ++ b) = valuesOf n a ++ valuesOf n b := by
  simp [valuesOf]

theorem groupOf_nil (n : String) : groupOf n [] = none := by
  simp [groupOf, valuesOf]

theorem groupOf_append (n : String) (a b : List HeaderField) :
    groupOf n (a ++ b) = mergeVals (groupOf n a) (groupOf n b) := by
  unfold groupOf
  rw [valuesOf_append]
  by_cases ha : valuesOf n a = [] <;> by_cases hb : valuesOf n b = [] <;>
    simp [ha, hb, mergeVals]

theorem groupOf_cons (n : String) (h : HeaderField) (rest : List HeaderField) :
    groupOf n (h :: rest) =
      mergeVals (if h.Name = n then some [h.Value] else none) (groupOf n rest) := by
  have := groupOf_append n [h] rest
  simp only [List.singleton_append] at this
  rw [this]
  congr 1
  by_cases hn : h.Name = n <;> simp [groupOf, valuesOf, hn]

/-- One pass of the loop of `parseHeaders` (and of `AddHeader`) seen through a lookup. -/
theorem get_addValue (m : GoMap) (k v n : String) :
    (match m.get k with
      | some vals => m.set k (vals ++ [v])
      | none => m.set k [v]).get n =
      mergeVals (m.get n) (if k = n then some [v] else none) := by
  by_cases h : k = n
  · subst h
    cases hm : m.get k <;> simp [GoMap.get_set, mergeVals]
  · cases hm : m.get k <;> simp [GoMap.get_set, h, mergeVals_none_right]

theorem keys_addValue (m : GoMap) (k v : String) (h : m.keys.Nodup) :
    (match m.get k with
      | some vals => m.set k (vals ++ [v])
      | none => m.set k [v]).keys.Nodup := by
  cases hm : m.get k <;> simp only [] <;> exact GoMap.set_keys_nodup _ _ _ h

theorem parseFold_get (hs : List HeaderField) (m : GoMap) (n : String) :
    (hs.foldl (fun headers h =>
      match headers.get h.Name with
      | some vals =>
        let newVals := vals ++ [h.Value]
        headers.set h.Name newVals
      | none => headers.set h.Name [h.Value]) m).get n =
      mergeVals (m.get n) (groupOf n hs) := by
  induction hs generalizing m with
  | nil => simp [groupOf_nil, mergeVals_none_right]
  | cons h rest ih =>
    rw [List.foldl_cons, ih, groupOf_cons, ← mergeVals_assoc]
    congr 1
    exact get_addValue m h.Name h.Value n

theorem parseFold_nodup (hs : List HeaderField) (m : GoMap) (hm : m.keys.Nodup) :
    (hs.foldl (fun headers h =>
      match headers.get h.Name with
      | some vals =>
        let newVals := vals ++ [h.Value]
        headers.set h.Name newVals
      | none => headers.set h.Name [h.Value]) m).keys.Nodup := by
  induction hs generalizing m with
  | nil => simpa using hm
  | cons h rest ih =>
    rw [List.foldl_cons]
    exact ih _ (keys_addValue m h.Name h.Value hm)

theorem GoMap.empty_get (n : String) : GoMap.empty.get n = none := rfl

theorem parseHeaders_ok (dec : List Nat → Except Error (List HeaderField))
    (block : List Nat) (hvals : List HeaderField) (h : dec block = .ok hvals) :
    (parseHeaders dec block).2 = none ∧
    (∀ n, (parseHeaders dec block).1.get n = groupOf n hvals) ∧
    (parseHeaders dec block).1.keys.Nodup := by
  simp only [parseHeaders, h]
  refine ⟨trivial, ?_, ?_⟩
  · intro n
    rw [parseFold_get]
    simp [GoMap.empty_get, mergeVals]
  · apply parseFold_nodup
    simp [GoMap.empty, GoMap.keys]

theorem parseHeaders_error (dec : List Nat → Except Error (List HeaderField))
    (block : List Nat) (err : Error) (h : dec block = .error err) :
    parseHeaders dec block = (GoMap.empty, some err) := by
  simp [parseHeaders, h]

/-! ## Merging maps -/

theorem get_addStep (m : GoMap) (k : String) (v : List String) (n : String) :
    (match m.get k with
      | some hvals => m.set k (hvals ++ v)
      | none => m.set k v).get n =
      mergeVals (m.get n) (if k = n then some v else none) := by
  by_cases h : k = n
  · subst h
    cases hm : m.get k <;> simp [GoMap.get_set, mergeVals]
  · cases hm : m.get k <;> simp [GoMap.get_set, h, mergeVals_none_right]

theorem addFold_get (l : List (String × List String)) (m : GoMap) (n : String) :
    (l.foldl (fun headers kv =>
      let k := kv.1
      let v := kv.2
      match headers.get k with
      | some hvals => headers.set k (hvals ++ v)
      | none => headers.set k v) m).get n =
      mergeVals (m.get n) (collectVals n l) := by
  induction l generalizing m with
  | nil => simp [collectVals, mergeVals_none_right]
  | cons e rest ih =>
    obtain ⟨k, v⟩ := e
    rw [List.foldl_cons, ih, collectVals, ← mergeVals_assoc]
    congr 1
    exact get_addStep m k v n

theorem collectVals_nodup (n : String) (l : List (String × List String))
    (h : (l.map Prod.fst).Nodup) : collectVals n l = lookupEntries l n := by
  induction l with
  | nil => rfl
  | cons e rest ih =>
    obtain ⟨k, v⟩ := e
    simp only [List.map_cons, List.nodup_cons] at h
    rw [collectVals, lookupEntries, ih h.2]
    by_cases hk : k = n
    · subst hk
      have : lookupEntries rest k = none := (lookupEntries_eq_none rest k).2 h.1
      simp [this, mergeVals]
    · simp [hk, mergeVals]

theorem lookupEntries_visit (m : GoMap) (l : List String) (n : String) :
    lookupEntries (l.filterMap (fun k => (m.get k).map (fun v => (k, v)))) n =
      if n ∈ l then m.get n else none := by
  induction l with
  | nil => simp [lookupEntries]
  | cons k rest ih =>
    by_cases hk : k = n
    · subst hk
      cases hm : m.get k with
      | none =>
        simp only [List.filterMap_cons, hm, Option.map_none', ih, List.mem_cons, true_or,
          if_true]
        split <;> rfl
      | some v => simp [List.filterMap_cons, hm, lookupEntries]
    · have hk' : ¬ n = k := fun e => hk e.symm
      cases hm : m.get k with
      | none => simp [List.filterMap_cons, hm, ih, hk']
      | some v => simp [List.filterMap_cons, hm, lookupEntries, hk, ih, hk']

theorem visit_keys_sublist (m : GoMap) (l : List String) :
    ((l.filterMap (fun k => (m.get k).map (fun v => (k, v)))).map Prod.fst).Sublist l := by
  induction l with
  | nil => simp
  | cons k rest ih =>
    cases hm : m.get k with
    | none =>
      simp only [List.filterMap_cons, hm, Option.map_none']
      exact List.Sublist.cons _ ih
    | some v =>
      simp only [List.filterMap_cons, hm, Option.map_some', List.map_cons]
      exact List.Sublist.cons₂ _ ih

theorem range_keys_nodup (ord : RangeOrder) (hord : ValidOrder ord) (m : GoMap)
    (hm : m.keys.Nodup) : ((m.range ord).map Prod.fst).Nodup :=
  List.Nodup.sublist (visit_keys_sublist m (ord m)) ((hord m).nodup_iff.2 hm)

theorem range_lookup (ord : RangeOrder) (hord : ValidOrder ord) (m : GoMap) (n : String) :
    lookupEntries (m.range ord) n = m.get n := by
  rw [GoMap.range, lookupEntries_visit]
  split
  · rfl
  · rename_i hn
    symm
    apply (lookupEntries_eq_none m.entries n).2
    intro hmem
    exact hn ((hord m).mem_iff.2 hmem)

theorem addHeaders_get (ord : RangeOrder) (hord : ValidOrder ord)
    (headers add : GoMap) (hadd : add.keys.Nodup) (n : String) :
    (addHeaders ord headers add).get n = mergeVals (headers.get n) (add.get n) := by
  rw [addHeaders, addFold_get, collectVals_nodup n _ (range_keys_nodup ord hord add hadd),
    range_lookup ord hord]

/-! ## The receive loop -/

theorem readLoop_broke (dec : List Nat → Except Error (List HeaderField))
    (ord : RangeOrder) :
    ∀ (inbound : List (Except Error Frame)) (hasBody : Bool) (body : List Nat)
      (headers : GoMap) (hb : Bool) (b : List Nat) (hs : GoMap)
      (rest : List (Except Error Frame)),
      readLoop dec ord inbound hasBody body headers = (LoopExit.broke hb b hs, rest) →
      ∃ read : List Frame, inbound = read.map Except.ok ++ rest ∧
        hb = (hasBody || read.any Frame.isData) ∧
        b = body ++ dataBytes read ∧
        (ValidOrder ord → ∀ n,
          hs.get n = mergeVals (headers.get n) (groupOf n (decodedFields dec read))) := by
  intro inbound
  induction inbound with
  | nil =>
    intro hasBody body headers hb b hs rest h
    simp [readLoop] at h
  | cons r tl ih =>
    intro hasBody body headers hb b hs rest h
    cases r with
    | error err => simp [readLoop] at h
    | ok f =>
      cases f with
      | HeadersFrame sid block ended =>
        rw [readLoop] at h
        cases hd : dec block with
        | error err =>
          rw [parseHeaders_error dec block err hd] at h
          simp at h
        | ok hvals =>
          obtain ⟨h1, h2, h3⟩ := parseHeaders_ok dec block hvals hd
          have hstep : ValidOrder ord → ∀ n,
              (addHeaders ord headers (parseHeaders dec block).1).get n =
              mergeVals (headers.get n) (groupOf n hvals) := by
            intro hord n
            rw [addHeaders_get ord hord _ _ h3, h2]
          rcases hp : parseHeaders dec block with ⟨newHeaders, perr⟩
          rw [hp] at h1 hstep
          simp only at h1
          subst h1
          rw [hp] at h
          simp only at h
          cases ended with
          | true =>
            simp only [if_true, Prod.mk.injEq, LoopExit.broke.injEq] at h
            obtain ⟨⟨rfl, rfl, rfl⟩, rfl⟩ := h
            refine ⟨[Frame.HeadersFrame sid block true], by simp, by simp [Frame.isData],
              by simp [dataBytes], ?_⟩
            intro hord n
            simp [decodedFields, hd, hstep hord]
          | false =>
            simp only [Bool.false_eq_true, if_false] at h
            obtain ⟨read, e1, e2, e3, e4⟩ := ih _ _ _ _ _ _ _ h
            refine ⟨Frame.HeadersFrame sid block false :: read, by simp [e1],
              by simp [e2, Frame.isData], by simp [e3, dataBytes], ?_⟩
            intro hord n
            rw [e4 hord, hstep hord, mergeVals_assoc, ← groupOf_append]
            simp [decodedFields, hd]
      | DataFrame sid d ended =>
        rw [readLoop] at h
        cases ended with
        | true =>
          simp only [if_true, Prod.mk.injEq, LoopExit.broke.injEq] at h
          obtain ⟨⟨rfl, rfl, rfl⟩, rfl⟩ := h
          refine ⟨[Frame.DataFrame sid d true], by simp, by simp [Frame.isData],
            by simp [dataBytes], ?_⟩
          intro hord n
          simp [decodedFields, groupOf_nil, mergeVals_none_right]
        | false =>
          simp only [Bool.false_eq_true, if_false] at h
          obtain ⟨read, e1, e2, e3, e4⟩ := ih _ _ _ _ _ _ _ h
          refine ⟨Frame.DataFrame sid d false :: read, by simp [e1],
            by simp [e2, Frame.isData], by simp [e3, dataBytes], ?_⟩
          intro hord n
          rw [e4 hord]
          simp [decodedFields]
      | GoAwayFrame => simp [readLoop] at h
      | RSTStreamFrame sid => simp [readLoop] at h
      | OtherFrame ft sid =>
        rw [readLoop] at h
        obtain ⟨read, e1, e2, e3, e4⟩ := ih _ _ _ _ _ _ _ h
        refine ⟨Frame.OtherFrame ft sid :: read, by simp [e1],
          by simp [e2, Frame.isData], by simp [e3, dataBytes], ?_⟩
        intro hord n
        rw [e4 hord]
        simp [decodedFields]

theorem readLoop_returned (dec : List Nat → Except Error (List HeaderField))
    (ord : RangeOrder) :
    ∀ (inbound : List (Except Error Frame)) (hasBody : Bool) (body : List Nat)
      (headers : GoMap) (resp : Option Response) (err : Option Error)
      (rest : List (Except Error Frame)),
      readLoop dec ord inbound hasBody body headers = (LoopExit.returned resp err, rest) →
      resp = none ∧ ∃ e, err = some e := by
  intro inbound
  induction inbound with
  | nil =>
    intro hasBody body headers resp err rest h
    simp only [readLoop, Prod.mk.injEq, LoopExit.returned.injEq] at h
    exact ⟨h.1.1.symm, _, h.1.2.symm⟩
  | cons r tl ih =>
    intro hasBody body headers resp err rest h
    cases r with
    | error e =>
      simp only [readLoop, Prod.mk.injEq, LoopExit.returned.injEq] at h
      exact ⟨h.1.1.symm, _, h.1.2.symm⟩
    | ok f =>
      cases f with
      | HeadersFrame sid block ended =>
        rw [readLoop] at h
        rcases hp : parseHeaders dec block with ⟨newHeaders, perr⟩
        rw [hp] at h
        cases perr with
        | some e =>
          simp only [Prod.mk.injEq, LoopExit.returned.injEq] at h
          exact ⟨h.1.1.symm, _, h.1.2.symm⟩
        | none =>
          cases ended with
          | true => simp at h
          | false =>
            simp only [Bool.false_eq_true, if_false] at h
            exact ih _ _ _ _ _ _ h
      | DataFrame sid d ended =>
        rw [readLoop] at h
        cases ended with
        | true => simp at h
        | false =>
          simp only [Bool.false_eq_true, if_false] at h
          exact ih _ _ _ _ _ _ h
      | GoAwayFrame =>
        simp only [readLoop, Prod.mk.injEq, LoopExit.returned.injEq] at h
        exact ⟨h.1.1.symm, _, h.1.2.symm⟩
      | RSTStreamFrame sid =>
        simp only [readLoop, Prod.mk.injEq, LoopExit.returned.injEq] at h
        exact ⟨h.1.1.symm, _, h.1.2.symm⟩
      | OtherFrame ft sid =>
        rw [readLoop] at h
        exact ih _ _ _ _ _ _ h

theorem groupOf_ne_some_nil (n : String) (fs : List HeaderField) : groupOf n fs ≠ some [] := by
  unfold groupOf
  split
  · simp
  · rename_i h
    intro e
    exact h (Option.some.inj e)

theorem groupOf_head (n : String) (fs : List HeaderField) :
    (match groupOf n fs with
      | some s => s.head?
      | none => some "") = some ((valuesOf n fs).head?.getD "") := by
  unfold groupOf
  cases hv : valuesOf n fs with
  | nil => simp
  | cons a l => simp

/-- What a normal return of `readResponse` says about the frames it read. -/
theorem readResponse_normal (dec : List Nat → Except Error (List HeaderField))
    (ord : RangeOrder) (c : H2Conn) (resp : Response)
    (h : (Client.readResponse dec ord c).1 = Outcome.returned (some resp) none) :
    ∃ read : List Frame,
      c.inbound = read.map Except.ok ++ (Client.readResponse dec ord c).2.inbound ∧
      resp.Body = (if read.any Frame.isData then some (dataBytes read) else none) ∧
      (ValidOrder ord → (∀ n, resp.Headers.get n = groupOf n (decodedFields dec read)) ∧
        resp.Status = (valuesOf ":status" (decodedFields dec read)).head?.getD "") := by
  rcases hl : readLoop dec ord c.inbound false [] GoMap.empty with ⟨ex, rest⟩
  simp only [Client.readResponse, hl] at h ⊢
  cases ex with
  | returned r e =>
    simp only [Outcome.returned.injEq] at h
    obtain ⟨hr, _⟩ := readLoop_returned dec ord _ _ _ _ _ _ _ hl
    rw [hr] at h
    exact absurd h.1 (by simp)
  | broke hb b hs =>
    obtain ⟨read, e1, e2, e3, e4⟩ := readLoop_broke dec ord _ _ _ _ _ _ _ _ hl
    refine ⟨read, ?_, ?_⟩
    · simp only [e1]
      split <;> rfl
    simp only at h
    cases hst : (match hs.get ":status" with
      | some s => s.head?
      | none => some "") with
    | none =>
      rw [hst] at h
      simp at h
    | some st =>
      rw [hst] at h
      simp only [Outcome.returned.injEq, Option.some.injEq, and_true] at h
      subst h
      refine ⟨?_, ?_⟩
      · simp [e2, e3]
      · intro hord
        have e5 : ∀ n, hs.get n = groupOf n (decodedFields dec read) := by
          intro n
          rw [e4 hord n]
          simp [GoMap.empty_get, mergeVals]
        refine ⟨e5, ?_⟩
        rw [e5, groupOf_head] at hst
        exact (Option.some.inj hst).symm

theorem storedOrder_valid : ValidOrder storedOrder := fun _ => List.Perm.refl _

/-- A single zero-length DATA frame with end-stream, whatever the decoder, the
iteration order and the rest of the connection: the Response has an empty body. -/
theorem readResponse_single_empty_data (dec : List Nat → Except Error (List HeaderField))
    (ord : RangeOrder) (c : H2Conn) (sid : Nat) (rest : List (Except Error Frame))
    (hin : c.inbound = .ok (Frame.DataFrame sid [] true) :: rest) :
    ∃ resp, (Client.readResponse dec ord c).1 = Outcome.returned (some resp) none ∧
      resp.HasBody = true ∧ resp.Body = some [] ∧ resp.BodyLength = 0 ∧
      (Client.readResponse dec ord c).2.inbound = rest := by
  refine ⟨⟨"", "", GoMap.empty, some []⟩, ?_, rfl, rfl, rfl, ?_⟩ <;>
    simp [Client.readResponse, hin, readLoop, GoMap.empty_get]

/-- C6: when `readResponse` returns normally, for every name `n`, compared
exactly, `Headers[n]` is the list of all values decoded for `n` over the HEADERS
frames read, frames in read order and the values of a frame in decoded order,
and a name that was never decoded is absent from the mapping. -/
theorem C6_headers_accumulate (dec : List Nat → Except Error (List HeaderField))
    (ord : RangeOrder) (hord : ValidOrder ord) (c : H2Conn) (resp : Response)
    (h : (Client.readResponse dec ord c).1 = Outcome.returned (some resp) none) :
    ∃ read : List Frame,
      c.inbound = read.map Except.ok ++ (Client.readResponse dec ord c).2.inbound ∧
      ∀ n : String,
        (valuesOf n (decodedFields dec read) = [] → resp.Headers.get n = none) ∧
        (valuesOf n (decodedFields dec read) ≠ [] →
          resp.Headers.get n = some (valuesOf n (decodedFields dec read))) := by
  obtain ⟨read, h1, _, h3⟩ := readResponse_normal dec ord c resp h
  refine ⟨read, h1, ?_⟩
  intro n
  rw [(h3 hord).1 n]
  constructor <;> intro hv <;> simp [groupOf, hv]

/-- The outcome of `readResponse` is decided by the loop over the inbound reads. -/
theorem readResponse_outcome (dec : List Nat → Except Error (List HeaderField))
    (ord : RangeOrder) (c : H2Conn) :
    (Client.readResponse dec ord c).1 =
      (match (readLoop dec ord c.inbound false [] GoMap.empty).1 with
        | LoopExit.returned resp err => Outcome.returned resp err
        | LoopExit.broke hasBody body headers =>
          match (match headers.get ":status" with
            | some s => s.head?
            | none => some "") with
          | none => Outcome.panicked
          | some status =>
            Outcome.returned
              (some ⟨status, "", headers, if hasBody then some body else none⟩) none) := by
  rcases hl : readLoop dec ord c.inbound false [] GoMap.empty with ⟨ex, rest⟩
  simp only [Client.readResponse, hl]
  cases ex with
  | returned r e => rfl
  | broke hb b hs =>
    simp only
    generalize (match hs.get ":status" with
      | some s => s.head?
      | none => some "") = st
    cases st <;> rfl

theorem readResponse_outcome_congr (dec : List Nat → Except Error (List HeaderField))
    (ord : RangeOrder) (c1 c2 : H2Conn) (h : c1.inbound = c2.inbound) :
    (Client.readResponse dec ord c1).1 = (Client.readResponse dec ord c2).1 := by
  rw [readResponse_outcome, readResponse_outcome, h]

theorem readLoop_terminated (dec : List Nat → Except Error (List HeaderField))
    (ord : RangeOrder) (t : Frame) (rest : List (Except Error Frame))
    (ht : t = Frame.GoAwayFrame ∨ ∃ sid, t = Frame.RSTStreamFrame sid) :
    ∀ (pre : List Frame) (hasBody : Bool) (body : List Nat) (headers : GoMap),
      (∀ f ∈ pre, f.endsStream = false) →
      (∀ sid block ended, Frame.HeadersFrame sid block ended ∈ pre →
        ∃ hvals, dec block = .ok hvals) →
      ∃ e, (readLoop dec ord (pre.map Except.ok ++ .ok t :: rest) hasBody body headers).1 =
          LoopExit.returned none (some e) ∧
        (e = "Received GoAway frame" ∨ e = "Received RSTStreamFrame frame") := by
  intro pre
  induction pre with
  | nil =>
    intro hasBody body headers _ _
    rcases ht with rfl | ⟨sid, rfl⟩
    · exact ⟨_, by simp [readLoop], Or.inl rfl⟩
    · exact ⟨_, by simp [readLoop], Or.inr rfl⟩
  | cons f tl ih =>
    intro hasBody body headers hpre hdec
    have hpre' : ∀ f ∈ tl, f.endsStream = false := fun g hg => hpre g (List.mem_cons_of_mem _ hg)
    have hdec' : ∀ sid block ended, Frame.HeadersFrame sid block ended ∈ tl →
        ∃ hvals, dec block = .ok hvals :=
      fun sid block ended hg => hdec sid block ended (List.mem_cons_of_mem _ hg)
    have hf := hpre f (List.mem_cons_self _ _)
    cases f with
    | HeadersFrame sid block ended =>
      simp only [Frame.endsStream] at hf
      subst hf
      obtain ⟨hvals, hd⟩ := hdec sid block false (List.mem_cons_self _ _)
      obtain ⟨h1, _, _⟩ := parseHeaders_ok dec block hvals hd
      simp only [List.map_cons, List.cons_append, readLoop]
      rcases hp : parseHeaders dec block with ⟨newHeaders, perr⟩
      rw [hp] at h1
      simp only at h1
      subst h1
      simpa using ih _ _ _ hpre' hdec'
    | DataFrame sid d ended =>
      simp only [Frame.endsStream] at hf
      subst hf
      simp only [List.map_cons, List.cons_append, readLoop]
      simpa using ih _ _ _ hpre' hdec'
    | GoAwayFrame => exact ⟨_, by simp [readLoop], Or.inl rfl⟩
    | RSTStreamFrame sid => exact ⟨_, by simp [readLoop], Or.inr rfl⟩
    | OtherFrame ft sid =>
      simp only [List.map_cons, List.cons_append, readLoop]
      exact ih _ _ _ hpre' hdec'

theorem readResponse_conn (dec : List Nat → Except Error (List HeaderField))
    (ord : RangeOrder) (c : H2Conn) :
    (Client.readResponse dec ord c).2.written = c.written ∧
    (Client.readResponse dec ord c).2.PrefaceSent = c.PrefaceSent ∧
    (Client.readResponse dec ord c).2.SettingsSent = c.SettingsSent := by
  rcases hl : readLoop dec ord c.inbound false [] GoMap.empty with ⟨ex, rest⟩
  simp only [Client.readResponse, hl]
  cases ex with
  | returned r e => exact ⟨rfl, rfl, rfl⟩
  | broke hb b hs =>
    simp only
    generalize (match hs.get ":status" with
      | some s => s.head?
      | none => some "") = st
    cases st <;> exact ⟨rfl, rfl, rfl⟩

/-- Either `MakeRequest` returns the error of a write, or it is `readResponse` on
a connection with the same inbound reads. -/
theorem MakeRequest_cases (dec : List Nat → Except Error (List HeaderField))
    (ord : RangeOrder) (c : H2Conn) (req : Request) (s : Nat) :
    (∃ e, (Client.MakeRequest dec ord c req s).1 = Outcome.returned none (some e)) ∨
    (∃ c1 : H2Conn, c1.inbound = c.inbound ∧
      Client.MakeRequest dec ord c req s = Client.readResponse dec ord c1) := by
  unfold Client.MakeRequest H2Conn.DefaultInit H2Conn.write
  cases hi : c.IsIntialized <;> cases h0 : c.wfail 0 <;> cases h1 : c.wfail 1 <;>
    cases h2 : c.wfail 2 <;> cases h3 : c.wfail 3 <;> cases hb : req.Body <;>
    simp [h0, h1, h2, h3] <;> exact Or.inr ⟨_, by rfl, rfl⟩



/-- C1: on a session whose writes all succeed, `MakeRequest` writes, after the
preface and SETTINGS of an initialization if one was due, exactly one HEADERS
frame on the stream, with end-headers set and end-stream set exactly when the
request has no body, then no DATA frame when there is no body, and otherwise
exactly one DATA frame on the stream with end-stream set whose payload is the
body itself, whatever headers the request carries. -/
theorem C1_request_frames (dec : List Nat → Except Error (List HeaderField))
    (ord : RangeOrder) (c : H2Conn) (req : Request) (s : Nat)
    (hw : ∀ i, c.wfail i = none) :
    (Client.MakeRequest dec ord c req s).2.written =
      c.written ++
        (if c.IsIntialized then []
          else [Wire.preface, Wire.settings [(SettingMaxConcurrentStreams, 100)]]) ++
        [Wire.headers s (Client.headerBlock ord req) (!req.HasBody) true] ++
        (match req.Body with
          | none => []
          | some body => [Wire.data s true body]) := by
  unfold Client.MakeRequest H2Conn.DefaultInit H2Conn.write
  cases hi : c.IsIntialized <;> cases hb : req.Body <;>
    simp [hw, (readResponse_conn dec ord _).1]

/-- C9: when the session is not initialized on entry, `MakeRequest` writes the
client preface, then one SETTINGS frame with max-concurrent-streams 100, sets
both flags, and only then writes HEADERS and DATA; when one of the two
initialization writes fails it returns that error and writes no HEADERS or DATA
frame; when the session is initialized on entry it writes HEADERS and DATA
frames only.  Neither `DefaultInit` nor `MakeRequest` resets a flag. -/
theorem C9_init_before_frames (dec : List Nat → Except Error (List HeaderField))
    (ord : RangeOrder) (c : H2Conn) (req : Request) (s : Nat) :
    (∀ e, c.IsIntialized = false → c.wfail 0 = some e →
      (Client.MakeRequest dec ord c req s).1 = Outcome.returned none (some e) ∧
      (Client.MakeRequest dec ord c req s).2.written = c.written) ∧
    (∀ e, c.IsIntialized = false → c.wfail 0 = none → c.wfail 1 = some e →
      (Client.MakeRequest dec ord c req s).1 = Outcome.returned none (some e) ∧
      (Client.MakeRequest dec ord c req s).2.written = c.written ++ [Wire.preface]) ∧
    (c.IsIntialized = false → c.wfail 0 = none → c.wfail 1 = none →
      (Client.MakeRequest dec ord c req s).2.PrefaceSent = true ∧
      (Client.MakeRequest dec ord c req s).2.SettingsSent = true ∧
      ∃ frames, (Client.MakeRequest dec ord c req s).2.written =
          c.written ++ [Wire.preface, Wire.settings [(SettingMaxConcurrentStreams, 100)]] ++
            frames ∧
        ∀ w ∈ frames, w.isRequestFrame = true) ∧
    (c.IsIntialized = true →
      ∃ frames, (Client.MakeRequest dec ord c req s).2.written = c.written ++ frames ∧
        ∀ w ∈ frames, w.isRequestFrame = true) ∧
    (c.PrefaceSent = true → (Client.MakeRequest dec ord c req s).2.PrefaceSent = true ∧
      c.DefaultInit.2.PrefaceSent = true) ∧
    (c.SettingsSent = true → (Client.MakeRequest dec ord c req s).2.SettingsSent = true ∧
      c.DefaultInit.2.SettingsSent = true) := by
  refine ⟨?_, ?_, ?_, ?_, ?_, ?_⟩
  · intro e hi h0
    simp [Client.MakeRequest, H2Conn.DefaultInit, H2Conn.write, hi, h0]
  · intro e hi h0 h1
    simp [Client.MakeRequest, H2Conn.DefaultInit, H2Conn.write, hi, h0, h1]
  · intro hi h0 h1
    unfold Client.MakeRequest H2Conn.DefaultInit H2Conn.write
    cases h2 : c.wfail 2 <;> cases h3 : c.wfail 3 <;> cases hb : req.Body <;>
      simp [hi, h0, h1, h2, h3, readResponse_conn, Wire.isRequestFrame]
  · intro hi
    unfold Client.MakeRequest H2Conn.DefaultInit H2Conn.write
    cases h0 : c.wfail 0 <;> cases h1 : c.wfail 1 <;> cases hb : req.Body <;>
      simp [hi, h0, h1, readResponse_conn, Wire.isRequestFrame]
  · intro hp
    unfold Client.MakeRequest H2Conn.DefaultInit H2Conn.write
    cases hi : c.IsIntialized <;> cases h0 : c.wfail 0 <;> cases h1 : c.wfail 1 <;>
      cases h2 : c.wfail 2 <;> cases h3 : c.wfail 3 <;> cases hb : req.Body <;>
      simp [hp, h0, h1, h2, h3, readResponse_conn]
  · intro hp
    unfold Client.MakeRequest H2Conn.DefaultInit H2Conn.write
    cases hi : c.IsIntialized <;> cases h0 : c.wfail 0 <;> cases h1 : c.wfail 1 <;>
      cases h2 : c.wfail 2 <;> cases h3 : c.wfail 3 <;> cases hb : req.Body <;>
      simp [hp, h0, h1, h2, h3, readResponse_conn]

/-- C4: when a GOAWAY or RST_STREAM frame is read after frames that were all read
and decoded successfully and of which no HEADERS or DATA frame carried
end-stream, `readResponse` returns the termination error and a nil Response, and
`MakeRequest` on that connection returns an error and a nil Response. -/
theorem C4_termination_is_error (dec : List Nat → Except Error (List HeaderField))
    (ord : RangeOrder) (c : H2Conn) (pre : List Frame) (t : Frame)
    (rest : List (Except Error Frame))
    (hin : c.inbound = pre.map Except.ok ++ .ok t :: rest)
    (ht : t = Frame.GoAwayFrame ∨ ∃ sid, t = Frame.RSTStreamFrame sid)
    (hpre : ∀ f ∈ pre, f.endsStream = false)
    (hdec : ∀ sid block ended, Frame.HeadersFrame sid block ended ∈ pre →
      ∃ hvals, dec block = .ok hvals) :
    (∃ e, (Client.readResponse dec ord c).1 = Outcome.returned none (some e) ∧
      (e = "Received GoAway frame" ∨ e = "Received RSTStreamFrame frame")) ∧
    ∀ (req : Request) (s : Nat),
      ∃ e, (Client.MakeRequest dec ord c req s).1 = Outcome.returned none (some e) := by
  have key : ∀ c1 : H2Conn, c1.inbound = c.inbound →
      ∃ e, (Client.readResponse dec ord c1).1 = Outcome.returned none (some e) ∧
        (e = "Received GoAway frame" ∨ e = "Received RSTStreamFrame frame") := by
    intro c1 hc1
    obtain ⟨e, he, hmsg⟩ := readLoop_terminated dec ord t rest ht pre false [] GoMap.empty
      hpre hdec
    refine ⟨e, ?_, hmsg⟩
    rw [readResponse_outcome, hc1, hin, he]
  refine ⟨key c rfl, ?_⟩
  intro req s
  rcases MakeRequest_cases dec ord c req s with h | ⟨c1, hc1, heq⟩
  · exact h
  · obtain ⟨e, he, _⟩ := key c1 hc1
    exact ⟨e, by rw [heq, he]⟩

theorem AddHeader_headers (r : Request) (k v : String) :
    (r.AddHeader k v).Headers =
      (match r.Headers.get k with
        | some vals => r.Headers.set k (vals ++ [v])
        | none => r.Headers.set k [v]) := by
  unfold Request.AddHeader
  split <;> rfl

theorem addAll_headers (adds : List HeaderField) (r : Request) :
    (addAll r adds).Headers =
      adds.foldl (fun headers h =>
        match headers.get h.Name with
        | some vals =>
          let newVals := vals ++ [h.Value]
          headers.set h.Name newVals
        | none => headers.set h.Name [h.Value]) r.Headers := by
  induction adds generalizing r with
  | nil => rfl
  | cons h rest ih =>
    simp only [addAll, List.foldl_cons] at ih ⊢
    rw [ih, AddHeader_headers]

theorem addAll_fresh_get (method scheme authority path : String) (adds : List HeaderField)
    (n : String) :
    (addAll (NewRequest method scheme authority path) adds).Headers.get n = groupOf n adds := by
  rw [addAll_headers, parseFold_get]
  simp [NewRequest, GoMap.empty_get, mergeVals]

theorem addAll_fresh_nodup (method scheme authority path : String)
    (adds : List HeaderField) :
    (addAll (NewRequest method scheme authority path) adds).Headers.keys.Nodup := by
  rw [addAll_headers]
  apply parseFold_nodup
  simp [NewRequest, GoMap.empty, GoMap.keys]

theorem filter_name_eq (k : String) (adds : List HeaderField) :
    (valuesOf k adds).map (fun v => (⟨k, v⟩ : HeaderField)) =
      adds.filter (fun f => f.Name = k) := by
  induction adds with
  | nil => rfl
  | cons f rest ih =>
    by_cases hf : f.Name = k
    · subst hf
      simp only [valuesOf, List.filter_cons, decide_True, if_true, List.map_cons] at ih ⊢
      rw [ih]
    · simp only [valuesOf, List.filter_cons, hf, decide_False, Bool.false_eq_true,
        if_false] at ih ⊢
      exact ih

theorem regular_of_get (m : GoMap) (adds : List HeaderField)
    (hm : ∀ n, m.get n = groupOf n adds) (l : List String) :
    (l.filterMap (fun k => (m.get k).map (fun v => (k, v)))).flatMap
        (fun kv => kv.2.map (fun v => (⟨kv.1, v⟩ : HeaderField))) =
      l.flatMap (fun k => adds.filter (fun f => f.Name = k)) := by
  induction l with
  | nil => rfl
  | cons k rest ih =>
    rw [List.flatMap_cons, ← ih, ← filter_name_eq, List.filterMap_cons, hm k]
    unfold groupOf
    by_cases hv : valuesOf k adds = []
    · simp [hv]
    · simp [hv]

theorem flatMap_single (n : String) (g : List HeaderField) (l : List String)
    (hl : l.Nodup) :
    l.flatMap (fun k => if k = n then g else []) = if n ∈ l then g else [] := by
  induction l with
  | nil => rfl
  | cons k rest ih =>
    simp only [List.nodup_cons] at hl
    rw [List.flatMap_cons, ih hl.2]
    by_cases hk : k = n
    · subst hk
      simp [hl.1]
    · have hk' : ¬ n = k := fun e => hk e.symm
      simp [hk, hk']

theorem filter_flatMap_filter (n : String) (adds : List HeaderField) (l : List String) :
    (l.flatMap (fun k => adds.filter (fun f => f.Name = k))).filter (fun f => f.Name = n) =
      l.flatMap (fun k => if k = n then adds.filter (fun f => f.Name = n) else []) := by
  induction l with
  | nil => rfl
  | cons k rest ih =>
    rw [List.flatMap_cons, List.flatMap_cons, List.filter_append, ih]
    congr 1
    by_cases hk : k = n
    · subst hk
      simp [List.filter_filter]
    · simp only [hk, if_false, List.filter_filter]
      apply List.filter_eq_nil_iff.2
      intro f _
      simp only [Bool.and_eq_true, decide_eq_true_eq, not_and]
      intro h1 h2
      exact hk (h2.symm.trans h1)

/-- The regular fields of the header block after a sequence of `AddHeader` calls
on a fresh Request: the names in the order of the visit, each with its pairs. -/
theorem headerBlock_regular (ord : RangeOrder) (method scheme authority path : String)
    (adds : List HeaderField) :
    (Client.headerBlock ord (addAll (NewRequest method scheme authority path) adds)).drop 4 =
      (ord (addAll (NewRequest method scheme authority path) adds).Headers).flatMap
        (fun k => adds.filter (fun f => f.Name = k)) := by
  simp only [Client.headerBlock, GoMap.range, List.cons_append, List.nil_append,
    List.drop_succ_cons, List.drop_zero]
  exact regular_of_get _ adds (addAll_fresh_get method scheme authority path adds) _

/-- Whatever the order in which the runtime visits the two keys, the regular
fields after AddHeader (a,1), (b,2), (a,3) are not in the order added. -/
theorem sampleRequest_order_lost (ord : RangeOrder) (hord : ValidOrder ord) :
    (Client.headerBlock ord sampleRequest).drop 4 ≠ sampleAdds := by
  have hs : sampleRequest = addAll (NewRequest "GET" "https" "example.com" "/x") sampleAdds :=
    rfl
  have hk : sampleRequest.Headers.keys = ["a", "b"] := by decide
  have hp := hord sampleRequest.Headers
  rw [hk] at hp
  have hreg := headerBlock_regular ord "GET" "https" "example.com" "/x" sampleAdds
  rw [← hs] at hreg
  rw [hreg]
  obtain ⟨x, y, hxy⟩ := List.length_eq_two.1 hp.length_eq
  rw [hxy] at hp ⊢
  have hx : x ∈ ["a", "b"] := hp.subset (List.mem_cons_self _ _)
  have hy : y ∈ ["a", "b"] := hp.subset (List.mem_cons_of_mem _ (List.mem_cons_self _ _))
  have hnd : [x, y].Nodup := hp.nodup_iff.2 (by decide)
  simp only [List.mem_cons, List.mem_singleton, List.not_mem_nil, or_false] at hx hy
  rcases hx with rfl | rfl <;> rcases hy with rfl | rfl
  · simp at hnd
  · decide
  · decide
  · simp at hnd

/-- C2, as the code has it: after any sequence of `AddHeader` calls on a fresh
Request, the header block of `MakeRequest` is the four pseudo-headers followed,
for each distinct name once, in the order in which the runtime visits the map,
by the values added under that name in the order they were added.  So for each
name the fields of that name are the pairs added under it, in order, and the
regular fields are a rearrangement of the pairs added. -/
theorem C2_fields_grouped_by_name (ord : RangeOrder) (hord : ValidOrder ord)
    (method scheme authority path : String) (adds : List HeaderField) :
    Client.headerBlock ord (addAll (NewRequest method scheme authority path) adds) =
      [⟨":method", method⟩, ⟨":scheme", scheme⟩, ⟨":authority", authority⟩,
        ⟨":path", path⟩] ++
      (ord (addAll (NewRequest method scheme authority path) adds).Headers).flatMap
        (fun k => adds.filter (fun f => f.Name = k)) ∧
    (∀ n : String,
      ((Client.headerBlock ord
        (addAll (NewRequest method scheme authority path) adds)).drop 4).filter
          (fun f => f.Name = n) = adds.filter (fun f => f.Name = n)) ∧
    ((Client.headerBlock ord
      (addAll (NewRequest method scheme authority path) adds)).drop 4).Perm adds := by
  have hget := addAll_fresh_get method scheme authority path adds
  have hnd := addAll_fresh_nodup method scheme authority path adds
  have hreg := headerBlock_regular ord method scheme authority path adds
  have hmeth : (addAll (NewRequest method scheme authority path) adds).Method = method ∧
      (addAll (NewRequest method scheme authority path) adds).Scheme = scheme ∧
      (addAll (NewRequest method scheme authority path) adds).Authority = authority ∧
      (addAll (NewRequest method scheme authority path) adds).Path = path := by
    have : ∀ (l : List HeaderField) (r : Request), (addAll r l).Method = r.Method ∧
        (addAll r l).Scheme = r.Scheme ∧ (addAll r l).Authority = r.Authority ∧
        (addAll r l).Path = r.Path := by
      intro l
      induction l with
      | nil => intro r; exact ⟨rfl, rfl, rfl, rfl⟩
      | cons h rest ih =>
        intro r
        have h1 := ih (r.AddHeader h.Name h.Value)
        simp only [addAll, List.foldl_cons] at h1 ⊢
        rw [h1.1, h1.2.1, h1.2.2.1, h1.2.2.2]
        unfold Request.AddHeader
        split <;> exact ⟨rfl, rfl, rfl, rfl⟩
    exact this adds _
  have hfilter : ∀ n : String,
      ((Client.headerBlock ord
        (addAll (NewRequest method scheme authority path) adds)).drop 4).filter
          (fun f => f.Name = n) = adds.filter (fun f => f.Name = n) := by
    intro n
    rw [hreg, filter_flatMap_filter, flatMap_single n _ _ ((hord _).nodup_iff.2 hnd)]
    split
    · rfl
    · rename_i hn
      have hk : n ∉ (addAll (NewRequest method scheme authority path) adds).Headers.keys :=
        fun hmem => hn ((hord _).mem_iff.2 hmem)
      have hnone := (lookupEntries_eq_none _ n).2 hk
      have hg : groupOf n adds = none := by rw [← hget n]; exact hnone
      have hv : valuesOf n adds = [] := by
        unfold groupOf at hg
        by_contra hne
        simp [hne] at hg
      rw [← filter_name_eq, hv]
      rfl
  refine ⟨?_, hfilter, ?_⟩
  · have hb : Client.headerBlock ord (addAll (NewRequest method scheme authority path) adds) =
        [⟨":method", method⟩, ⟨":scheme", scheme⟩, ⟨":authority", authority⟩,
          ⟨":path", path⟩] ++ (Client.headerBlock ord
            (addAll (NewRequest method scheme authority path) adds)).drop 4 := by
      simp only [Client.headerBlock, hmeth.1, hmeth.2.1, hmeth.2.2.1, hmeth.2.2.2,
        List.cons_append, List.nil_append, List.drop_succ_cons, List.drop_zero]
    rw [hb, hreg]
  · rw [List.perm_iff_count]
    intro a
    have h1 := hfilter a.Name
    have h2 : ∀ l : List HeaderField,
        List.count a (l.filter (fun f => f.Name = a.Name)) = List.count a l := by
      intro l
      exact List.count_filter (by simp)
    rw [← h2, h1, h2]

/-- C2 as stated fails: after AddHeader (a,1), (b,2), (a,3) the regular fields of
the header block are not that sequence, in either order of the two map keys. -/
theorem C2_added_order_not_kept :
    (Client.headerBlock storedOrder sampleRequest).drop 4 ≠ sampleAdds ∧
    (Client.headerBlock reverseOrder sampleRequest).drop 4 ≠ sampleAdds ∧
    (Client.headerBlock storedOrder sampleRequest).drop 4 =
      [⟨"a", "1"⟩, ⟨"a", "3"⟩, ⟨"b", "2"⟩] ∧
    (Client.headerBlock reverseOrder sampleRequest).drop 4 =
      [⟨"b", "2"⟩, ⟨"a", "1"⟩, ⟨"a", "3"⟩] := by
  decide

/-- C2, amended, on the pairs (a,1), (b,2), (a,3) of the example. -/
theorem C2_fields_grouped_by_name_witness :
    ValidOrder storedOrder ∧
    ((Client.headerBlock storedOrder
      (addAll (NewRequest "GET" "https" "example.com" "/x") sampleAdds)).drop 4).Perm
        sampleAdds :=
  ⟨storedOrder_valid,
    (C2_fields_grouped_by_name storedOrder storedOrder_valid "GET" "https" "example.com" "/x"
      sampleAdds).2.2⟩

/-- The loop of `GetHeaderCombineCases` leaves the result variable as it was. -/
theorem combineCases_fold (toLower : String → String) (key : String)
    (l : List (String × List String)) (init : List String) :
    l.foldl (fun outer kv => (combineCasesStep toLower key outer kv).1) init = init := by
  induction l with
  | nil => rfl
  | cons kv rest ih =>
    rw [List.foldl_cons]
    have : (combineCasesStep toLower key init kv).1 = init := by
      by_cases hk : toLower kv.1 = key <;> simp [combineCasesStep, hk]
    rw [this, ih]

/-- Whatever it is asked, `GetHeaderCombineCases` returns no value and `false`. -/
theorem GetHeaderCombineCases_nothing (toLower : String → String) (ord : RangeOrder)
    (r : Response) (key separator : String) :
    r.GetHeaderCombineCases toLower ord key separator = ([], false) := by
  simp [Response.GetHeaderCombineCases, combineCases_fold]

/-- C5 fails on the code: for a Response with the header content-type:
text/plain and the key content-type, `GetHeaderCombineCases` returns no value and
`false`, where the lookup as specified returns the value and `true`. -/
theorem C5_combine_cases_returns_nothing :
    (Response.GetHeaderCombineCases asciiToLower storedOrder
      ⟨"200", "", ⟨[("content-type", ["text/plain"])]⟩, none⟩ "content-type" ", ") =
      ([], false) ∧
    combineCasesIntended asciiToLower storedOrder
      ⟨"200", "", ⟨[("content-type", ["text/plain"])]⟩, none⟩ "content-type" =
      (["text/plain"], true) := by
  decide

/-- The frames of `Serialize` when the framer accepts the writes: the HEADERS
frame has end-stream set exactly when the request has a body. -/
theorem Serialize_frames (ord : RangeOrder) (r : Request) (s : Nat) :
    Request.Serialize ord (fun _ => none) r s =
      ([Wire.headers s (Request.headerBlock ord r) r.HasBody true] ++
        (match r.Body with
          | none => []
          | some body => [Wire.data s true body]), none) := by
  unfold Request.Serialize
  cases hb : r.Body <;> simp

/-- C8 fails on the code: `Serialize` of a request without a body gives a HEADERS
frame with end-stream clear and nothing after it, and `Serialize` of a request
with a body gives a HEADERS frame with end-stream set, followed by the DATA
frame. -/
theorem C8_serialize_end_stream_inverted :
    Request.Serialize storedOrder (fun _ => none)
      (NewRequest "GET" "https" "example.com" "/x") 1 =
      ([Wire.headers 1 [⟨":method", "GET"⟩, ⟨":scheme", "https"⟩, ⟨":path", "/x"⟩,
        ⟨":authority", "example.com"⟩] false true], none) ∧
    Request.Serialize storedOrder (fun _ => none)
      { NewRequest "POST" "https" "example.com" "/x" with Body := some [104, 105] } 1 =
      ([Wire.headers 1 [⟨":method", "POST"⟩, ⟨":scheme", "https"⟩, ⟨":path", "/x"⟩,
        ⟨":authority", "example.com"⟩] true true, Wire.data 1 true [104, 105]], none) := by
  decide

/-- C1, on a request with the body "hi" and a content-length of 999, sent on
stream 1 of a connection on which nothing was sent yet. -/
theorem C1_request_frames_witness :
    (∀ i, (freshConn sampleInbound).wfail i = none) ∧
    (Client.MakeRequest sampleDecode storedOrder (freshConn sampleInbound) lyingRequest
      1).2.written =
      [Wire.preface, Wire.settings [(3, 100)],
        Wire.headers 1 [⟨":method", "POST"⟩, ⟨":scheme", "https"⟩,
          ⟨":authority", "example.com"⟩, ⟨":path", "/example/post"⟩,
          ⟨"content-length", "999"⟩] false true,
        Wire.data 1 true [104, 105]] :=
  ⟨fun _ => rfl,
    C1_request_frames sampleDecode storedOrder (freshConn sampleInbound) lyingRequest 1
      (fun _ => rfl)⟩

/-- What `readResponse` returns on the sample exchange. -/
theorem readResponse_sample :
    (Client.readResponse sampleDecode storedOrder (freshConn sampleInbound)).1 =
      Outcome.returned (some sampleResponse) none := by
  decide

/-- C6, on the sample exchange. -/
theorem C6_headers_accumulate_witness :
    ValidOrder storedOrder ∧
    (Client.readResponse sampleDecode storedOrder (freshConn sampleInbound)).1 =
      Outcome.returned (some sampleResponse) none ∧
    ∃ read : List Frame,
      (freshConn sampleInbound).inbound = read.map Except.ok ++
        (Client.readResponse sampleDecode storedOrder (freshConn sampleInbound)).2.inbound ∧
      ∀ n : String,
        (valuesOf n (decodedFields sampleDecode read) = [] →
          sampleResponse.Headers.get n = none) ∧
        (valuesOf n (decodedFields sampleDecode read) ≠ [] →
          sampleResponse.Headers.get n = some (valuesOf n (decodedFields sampleDecode read))) :=
  ⟨storedOrder_valid, by decide,
    C6_headers_accumulate sampleDecode storedOrder storedOrder_valid (freshConn sampleInbound)
      sampleResponse (by decide)⟩

/-- C4, on an exchange reset by the peer after a HEADERS and a DATA frame. -/
theorem C4_termination_is_error_witness :
    (freshConn resetInbound).inbound =
      [Frame.HeadersFrame 1 [0x88] false, Frame.DataFrame 1 [104] false].map Except.ok ++
        .ok (Frame.RSTStreamFrame 1) :: [.ok (Frame.DataFrame 1 [] true)] ∧
    (Client.readResponse sampleDecode storedOrder (freshConn resetInbound)).1 =
      Outcome.returned none (some "Received RSTStreamFrame frame") ∧
    ((∃ e, (Client.readResponse sampleDecode storedOrder (freshConn resetInbound)).1 =
        Outcome.returned none (some e) ∧
      (e = "Received GoAway frame" ∨ e = "Received RSTStreamFrame frame")) ∧
    ∀ (req : Request) (s : Nat),
      ∃ e, (Client.MakeRequest sampleDecode storedOrder (freshConn resetInbound) req s).1 =
        Outcome.returned none (some e)) :=
  ⟨rfl, by decide,
    C4_termination_is_error sampleDecode storedOrder (freshConn resetInbound)
      [Frame.HeadersFrame 1 [0x88] false, Frame.DataFrame 1 [104] false]
      (Frame.RSTStreamFrame 1) [.ok (Frame.DataFrame 1 [] true)] rfl (Or.inr ⟨1, rfl⟩)
      (by decide)
      (by
        intro sid block ended hmem
        simp only [List.mem_cons, Frame.HeadersFrame.injEq, List.mem_singleton,
          reduceCtorEq, or_false, List.not_mem_nil] at hmem
        obtain ⟨_, rfl, _⟩ := hmem
        exact ⟨_, rfl⟩)⟩

/-- C9, on connections whose first, second, or no write fails, and on a
connection that is initialized already. -/
theorem C9_init_before_frames_witness :
    ((Client.MakeRequest sampleDecode storedOrder (failingConn 0 sampleInbound)
        sampleRequest 1).1 = Outcome.returned none (some "write: broken pipe") ∧
      (Client.MakeRequest sampleDecode storedOrder (failingConn 0 sampleInbound)
        sampleRequest 1).2.written = []) ∧
    ((Client.MakeRequest sampleDecode storedOrder (failingConn 1 sampleInbound)
        sampleRequest 1).1 = Outcome.returned none (some "write: broken pipe") ∧
      (Client.MakeRequest sampleDecode storedOrder (failingConn 1 sampleInbound)
        sampleRequest 1).2.written = [Wire.preface]) ∧
    ((Client.MakeRequest sampleDecode storedOrder (freshConn sampleInbound)
        sampleRequest 1).2.PrefaceSent = true ∧
      (Client.MakeRequest sampleDecode storedOrder (freshConn sampleInbound)
        sampleRequest 1).2.SettingsSent = true ∧
      ∃ frames, (Client.MakeRequest sampleDecode storedOrder (freshConn sampleInbound)
          sampleRequest 1).2.written =
          [] ++ [Wire.preface, Wire.settings [(SettingMaxConcurrentStreams, 100)]] ++ frames ∧
        ∀ w ∈ frames, w.isRequestFrame = true) ∧
    (∃ frames, (Client.MakeRequest sampleDecode storedOrder (readyConn sampleInbound)
        sampleRequest 1).2.written = (readyConn sampleInbound).written ++ frames ∧
      ∀ w ∈ frames, w.isRequestFrame = true) :=
  ⟨(C9_init_before_frames sampleDecode storedOrder (failingConn 0 sampleInbound)
      sampleRequest 1).1 "write: broken pipe" rfl rfl,
    (C9_init_before_frames sampleDecode storedOrder (failingConn 1 sampleInbound)
      sampleRequest 1).2.1 "write: broken pipe" rfl rfl rfl,
    (C9_init_before_frames sampleDecode storedOrder (freshConn sampleInbound)
      sampleRequest 1).2.2.1 rfl rfl rfl,
    (C9_init_before_frames sampleDecode storedOrder (readyConn sampleInbound)
      sampleRequest 1).2.2.2.1 rfl⟩

end H2raw
